import Mathlib

/-!
Verification of the parallel portfolio coordination core of MergeSat
(src/minisat/parallel/JobQueue.h, src/minisat/parallel/ParSolver.cc).

The C++ sources are shallowly embedded: each C++ function relevant to the
properties below is translated into an executable Lean definition over an
explicit state record.  Machine integers (`size_t`, `uint64_t`) are modelled
as `Nat`; where the source can overflow or underflow, either an explicit
`% 2 ^ 64` is used or the operation is guarded exactly where the source has
an `assert` (such a guarded operation returns `Option`/`Except`, `none` or
`Except.error` standing for an assertion failure or a thrown exception).
-/

namespace MergeSat

/-! Barrier (src/minisat/parallel/JobQueue.h, lines 37-136)

State of the C++ `Barrier` class: `m_nb_threads`, `m_capacity`,
`m_count_down`.  The mutex and the condition variable carry no data; the
blocking behaviour is not part of the state.  Both counters are `size_t`;
`wait` is modelled as `Option` because the source asserts
`0 != m_nb_threads` (counting down) and `0 != m_capacity` (counting up)
before touching the counter, and decrementing past zero would otherwise
wrap. -/

structure Barrier where
  nb_threads : Nat
  capacity : Nat
  count_down : Bool
deriving DecidableEq, Repr

/-- Constructor `Barrier::Barrier(size_t nb_threads)`: both counters start at
`nb_threads`, phase is counting down. -/
def Barrier.init (nb_threads : Nat) : Barrier :=
  ⟨nb_threads, nb_threads, true⟩

/-- Model of `Barrier::wait()`: counting down decrements `m_nb_threads` and flips the
phase when 0 is reached; counting up increments `m_nb_threads` and flips the
phase when `m_capacity` is reached.  `none` models a failure of the
source's `assert(0u != m_nb_threads)` / `assert(0u != m_capacity)`. -/
def Barrier.wait (b : Barrier) : Option Barrier :=
  if b.count_down then
    if b.nb_threads = 0 then none
    else if b.nb_threads - 1 = 0 then some ⟨b.nb_threads - 1, b.capacity, false⟩
    else some ⟨b.nb_threads - 1, b.capacity, true⟩
  else
    if b.capacity = 0 then none
    else if b.nb_threads + 1 = b.capacity then some ⟨b.nb_threads + 1, b.capacity, true⟩
    else some ⟨b.nb_threads + 1, b.capacity, false⟩

/-- Model of `Barrier::grow(size_t new_capacity)`: fails (returning `false` and
leaving the state alone) when shrinking is requested; otherwise, when
counting down, the still-owed arrivals grow by the capacity delta. -/
def Barrier.grow (b : Barrier) (new_capacity : Nat) : Bool × Barrier :=
  if new_capacity < b.capacity then (false, b)
  else if b.count_down then
    (true, ⟨b.nb_threads + (new_capacity - b.capacity), new_capacity, b.count_down⟩)
  else
    (true, ⟨b.nb_threads, new_capacity, b.count_down⟩)

/-- Model of `Barrier::remaining()`: arrivals still owed in the current phase.  The
source computes `m_capacity - m_nb_threads` in `size_t` arithmetic directly
after asserting `m_capacity >= m_nb_threads`, so truncated `Nat`
subtraction agrees with it on every state satisfying that assertion. -/
def Barrier.remaining (b : Barrier) : Nat :=
  if b.count_down then b.nb_threads else b.capacity - b.nb_threads

/-- Model of `Barrier::empty()`: no thread is currently blocked. -/
def Barrier.empty (b : Barrier) : Bool :=
  b.remaining == b.capacity

/-- Iterated `Barrier::wait`, sequencing the per-arrival state updates of
`n` successive arrivals. -/
def Barrier.waitN (n : Nat) (b : Barrier) : Option Barrier :=
  match n with
  | 0 => some b
  | n + 1 => b.wait.bind (Barrier.waitN n)

/-- Barrier states produced by the constructor and closed under `grow` and
every `wait` that completes (an arrival on which the source's own asserts
hold). -/
inductive Barrier.Reachable : Barrier → Prop
  | init (n : Nat) : Barrier.Reachable (Barrier.init n)
  | grow {b : Barrier} (new_capacity : Nat) (hb : Barrier.Reachable b) :
      Barrier.Reachable (Barrier.grow b new_capacity).2
  | wait {b b' : Barrier} (hb : Barrier.Reachable b) (hw : b.wait = some b') :
      Barrier.Reachable b'

/-- The inductive invariant of the barrier: the owed-arrival counter never
exceeds the capacity, and strictly so while counting up. -/
def Barrier.Inv (b : Barrier) : Prop :=
  b.nb_threads ≤ b.capacity ∧ (b.count_down = false → b.nb_threads < b.capacity)

theorem Barrier.inv_init (n : Nat) : (Barrier.init n).Inv := by
  constructor
  · exact Nat.le_refl n
  · intro h
    simp [Barrier.init] at h

theorem Barrier.inv_grow {b : Barrier} (h : b.Inv) (new_capacity : Nat) :
    (b.grow new_capacity).2.Inv := by
  obtain ⟨R, C, cd⟩ := b
  obtain ⟨h1, h2⟩ := h
  dsimp only at h1
  unfold Barrier.grow
  by_cases hlt : new_capacity < C
  · simp only [dif_pos, hlt, if_true]
    exact ⟨h1, h2⟩
  · cases cd with
    | true =>
      simp only [hlt, if_false, if_true]
      refine ⟨by dsimp only; omega, ?_⟩
      intro hfalse
      simp at hfalse
    | false =>
      have hup : R < C := by simpa using h2 rfl
      simp only [hlt, if_false, Bool.false_eq_true]
      refine ⟨by dsimp only; omega, ?_⟩
      intro _
      dsimp only
      omega

theorem Barrier.inv_wait {b b' : Barrier} (h : b.Inv) (hw : b.wait = some b') :
    b'.Inv := by
  obtain ⟨R, C, cd⟩ := b
  obtain ⟨h1, h2⟩ := h
  dsimp only at h1
  unfold Barrier.wait at hw
  cases cd with
  | true =>
    simp only [if_true] at hw
    by_cases hz : R = 0
    · simp [hz] at hw
    · simp only [dif_neg, hz, if_false] at hw
      by_cases hone : R - 1 = 0
      · simp only [hone, if_true, Option.some.injEq] at hw
        subst hw
        refine ⟨by dsimp only; omega, ?_⟩
        intro _
        dsimp only
        omega
      · simp only [hone, if_false, Option.some.injEq] at hw
        subst hw
        refine ⟨by dsimp only; omega, ?_⟩
        intro hfalse
        simp at hfalse
  | false =>
    have hup : R < C := by simpa using h2 rfl
    simp only [Bool.false_eq_true, if_false] at hw
    by_cases hz : C = 0
    · omega
    · simp only [hz, if_false] at hw
      by_cases hcap : R + 1 = C
      · simp only [hcap, if_true, Option.some.injEq] at hw
        subst hw
        refine ⟨by dsimp only; omega, ?_⟩
        intro hfalse
        simp at hfalse
      · simp only [hcap, if_false, Option.some.injEq] at hw
        subst hw
        refine ⟨by dsimp only; omega, ?_⟩
        intro _
        dsimp only
        omega

theorem Barrier.inv_of_reachable {b : Barrier} (h : b.Reachable) : b.Inv := by
  induction h with
  | init n => exact Barrier.inv_init n
  | grow new_capacity hb ih => exact Barrier.inv_grow ih new_capacity
  | wait hb hw ih => exact Barrier.inv_wait ih hw

/-- One counting-down arrival per owed thread empties the barrier and flips
it to counting up. -/
theorem Barrier.waitN_down (R C : Nat) (h : 0 < R) :
    Barrier.waitN R ⟨R, C, true⟩ = some ⟨0, C, false⟩ := by
  induction R with
  | zero => omega
  | succ n ih =>
    by_cases hn : n = 0
    · subst hn
      simp [Barrier.waitN, Barrier.wait]
    · have step : Barrier.wait ⟨n + 1, C, true⟩ = some ⟨n, C, true⟩ := by
        simp [Barrier.wait, hn]
      simp only [Barrier.waitN, step, Option.bind_some]
      exact ih (by omega)

/-- Counting up from `C - k` arrivals still owed, `k` further arrivals fill
the barrier to capacity and flip it back to counting down. -/
theorem Barrier.waitN_up (k C : Nat) (h1 : 0 < k) (h2 : k ≤ C) :
    Barrier.waitN k ⟨C - k, C, false⟩ = some ⟨C, C, true⟩ := by
  induction k with
  | zero => omega
  | succ n ih =>
    by_cases hn : n = 0
    · subst hn
      have hC : 0 < C := by omega
      have hsum : C - 1 + 1 = C := by omega
      simp [Barrier.waitN, Barrier.wait, Nat.pos_iff_ne_zero.mp hC, hsum]
    · have hC : 0 < C := by omega
      have hsum : C - (n + 1) + 1 = C - n := by omega
      have hne : C - (n + 1) + 1 ≠ C := by omega
      have step : Barrier.wait ⟨C - (n + 1), C, false⟩ = some ⟨C - n, C, false⟩ := by
        simp only [Barrier.wait, if_neg (by simp : ¬((false : Bool) = true)),
          if_neg (Nat.pos_iff_ne_zero.mp hC), if_neg hne]
        rw [hsum]
      simp only [Barrier.waitN, step, Option.bind_some]
      exact ih (by omega) (by omega)

/-- C6: `Barrier::wait` decrements the owed counter in the counting-down
phase and flips the phase to counting up exactly on the arrival reaching 0;
it increments the counter in the counting-up phase and flips back exactly
on the arrival reaching the capacity; consequently, starting from any empty
barrier of positive capacity `C`, after `C` arrivals the barrier is again
empty with the same capacity and the opposite phase — reusable with no
reset step. -/
theorem barrier_wait_cycle :
    (∀ R C : Nat, 0 < R →
      Barrier.wait ⟨R, C, true⟩ = some ⟨R - 1, C, decide (R - 1 ≠ 0)⟩) ∧
    (∀ R C : Nat, 0 < C →
      Barrier.wait ⟨R, C, false⟩ = some ⟨R + 1, C, decide (R + 1 = C)⟩) ∧
    (∀ b : Barrier, b.empty = true → 0 < b.capacity →
      ∃ b' : Barrier, Barrier.waitN b.capacity b = some b' ∧
        b'.empty = true ∧ b'.capacity = b.capacity ∧ b'.count_down = !b.count_down) := by
  refine ⟨?_, ?_, ?_⟩
  · intro R C hR
    by_cases h1 : R - 1 = 0
    · simp [Barrier.wait, Nat.pos_iff_ne_zero.mp hR, h1]
    · simp [Barrier.wait, Nat.pos_iff_ne_zero.mp hR, h1]
  · intro R C hC
    by_cases h1 : R + 1 = C
    · simp [Barrier.wait, Nat.pos_iff_ne_zero.mp hC, h1]
    · simp [Barrier.wait, Nat.pos_iff_ne_zero.mp hC, h1]
  · rintro ⟨R, C, cd⟩ hempty hcap
    dsimp only at hcap
    simp only [Barrier.empty, Barrier.remaining, beq_iff_eq] at hempty
    cases cd with
    | true =>
      simp only [if_true] at hempty
      subst hempty
      refine ⟨⟨0, R, false⟩, ?_, ?_, rfl, rfl⟩
      · simpa using Barrier.waitN_down R R hcap
      · simp [Barrier.empty, Barrier.remaining]
    | false =>
      simp only [Bool.false_eq_true, if_false] at hempty
      have hR0 : R = 0 := by omega
      subst hR0
      refine ⟨⟨C, C, true⟩, ?_, ?_, rfl, rfl⟩
      · have := Barrier.waitN_up C C hcap (Nat.le_refl C)
        simpa using this
      · simp [Barrier.empty, Barrier.remaining]

/-- Witness for `barrier_wait_cycle` at concrete inputs. -/
theorem barrier_wait_cycle_witness :
    (Barrier.wait ⟨2, 3, true⟩ = some ⟨2 - 1, 3, decide (2 - 1 ≠ 0)⟩) ∧
    (Barrier.wait ⟨1, 3, false⟩ = some ⟨1 + 1, 3, decide (1 + 1 = 3)⟩) ∧
    (∃ b' : Barrier, Barrier.waitN (Barrier.mk 3 3 true).capacity ⟨3, 3, true⟩ = some b' ∧
      b'.empty = true ∧ b'.capacity = (Barrier.mk 3 3 true).capacity ∧
      b'.count_down = !(Barrier.mk 3 3 true).count_down) :=
  ⟨barrier_wait_cycle.1 2 3 (by decide),
   barrier_wait_cycle.2.1 1 3 (by decide),
   barrier_wait_cycle.2.2 ⟨3, 3, true⟩ (by decide) (by decide)⟩

/-- C7: `Barrier::grow(new_cap)` fails and changes nothing when shrinking is
requested; otherwise it succeeds, installs the new capacity, keeps the
phase, and adds the capacity delta to the owed-arrival counter exactly when
the phase is counting down. -/
theorem barrier_grow_spec (b : Barrier) (new_cap : Nat) :
    (new_cap < b.capacity → Barrier.grow b new_cap = (false, b)) ∧
    (b.capacity ≤ new_cap →
      (Barrier.grow b new_cap).1 = true ∧
      (Barrier.grow b new_cap).2.capacity = new_cap ∧
      (Barrier.grow b new_cap).2.count_down = b.count_down ∧
      (Barrier.grow b new_cap).2.nb_threads =
        (if b.count_down then b.nb_threads + (new_cap - b.capacity) else b.nb_threads)) := by
  constructor
  · intro hlt
    simp [Barrier.grow, hlt]
  · intro hle
    have hnlt : ¬new_cap < b.capacity := by omega
    by_cases hcd : b.count_down
    · simp [Barrier.grow, hnlt, hcd]
    · simp [Barrier.grow, hnlt, hcd]

/-- Witness for `barrier_grow_spec` at concrete inputs: a shrink request and
a genuine growth. -/
theorem barrier_grow_spec_witness :
    (Barrier.grow ⟨1, 2, true⟩ 1 = (false, ⟨1, 2, true⟩)) ∧
    ((Barrier.grow ⟨1, 2, true⟩ 4).1 = true ∧
      (Barrier.grow ⟨1, 2, true⟩ 4).2.capacity = 4 ∧
      (Barrier.grow ⟨1, 2, true⟩ 4).2.count_down = (Barrier.mk 1 2 true).count_down ∧
      (Barrier.grow ⟨1, 2, true⟩ 4).2.nb_threads =
        (if (Barrier.mk 1 2 true).count_down then 1 + (4 - 2) else 1)) :=
  ⟨(barrier_grow_spec ⟨1, 2, true⟩ 1).1 (by decide),
   (barrier_grow_spec ⟨1, 2, true⟩ 4).2 (by decide)⟩

/-- C10: the asserted predicate `m_capacity >= m_nb_threads` holds in every
barrier state reachable from any constructor call through `grow` calls and
completing `wait` arrivals, so the assertions checking it (in `grow` and
`remaining`) never fail. -/
theorem barrier_capacity_assert_invariant (b : Barrier) (h : b.Reachable) :
    b.nb_threads ≤ b.capacity :=
  (Barrier.inv_of_reachable h).1

/-- Witness for `barrier_capacity_assert_invariant` on a freshly constructed
barrier. -/
theorem barrier_capacity_assert_invariant_witness :
    (Barrier.init 2).nb_threads ≤ (Barrier.init 2).capacity :=
  barrier_capacity_assert_invariant (Barrier.init 2) (Barrier.Reachable.init 2)

/-! Winner selection: `ParSolver::collect_solvers_results`
(src/minisat/parallel/ParSolver.cc, lines 240-281)

The coordinator scans the per-worker results `solverData[t]._status`
together with each worker's final `conflict` vector.  The C++ loop keeps
`status`, `smallest_conflict` (a `size_t` initialised to `~0UL`),
`smallest_conflict_idx` and `sat_solver` (two `int`s initialised to `-1`).
Throwing the soundness-violation exception is modelled as
`Except.error`. -/

inductive lbool
  | l_True
  | l_False
  | l_Undef
deriving DecidableEq, Repr

/-- The initial value `~0UL` of `smallest_conflict` (64-bit `size_t`). -/
def USIZE_MAX : Nat := 2 ^ 64 - 1

/-- What `collect_solvers_results` reads from worker `t`: the worker's
`solverData[t]._status` and the worker's `conflict` vector (literals as
integers). -/
structure SolverResult where
  status : lbool
  conflict : List Int
deriving DecidableEq, Repr

/-- The loop state of `collect_solvers_results`. -/
structure CollectState where
  status : lbool
  smallest_conflict : Nat
  smallest_conflict_idx : Int
  sat_solver : Int
deriving DecidableEq, Repr

/-- The per-iteration state update of the `collect_solvers_results` loop
for a worker `t` with definite (non-`l_Undef`) status: the winning-solver
bookkeeping (note the source updates `smallest_conflict_idx` WITHOUT ever
updating `smallest_conflict`, which stays `~0UL`), followed by
`status = r`.  In the source the bookkeeping happens textually before the
throw check; bundling it with the `status` assignment is observationally
equal because a throw abandons the loop state. -/
def collect_update (w : SolverResult) (t : Nat) (st : CollectState) : CollectState :=
  let st1 : CollectState :=
    if w.status = lbool.l_False ∧ w.conflict.length < st.smallest_conflict then
      ⟨st.status, st.smallest_conflict, (t : Int), st.sat_solver⟩
    else if w.status = lbool.l_True then
      ⟨st.status, st.smallest_conflict, st.smallest_conflict_idx,
        if 0 ≤ st.sat_solver then st.sat_solver else (t : Int)⟩
    else st
  ⟨w.status, st1.smallest_conflict, st1.smallest_conflict_idx, st1.sat_solver⟩

/-- The `for (int t = 0; t < cores; ++t)` loop of
`collect_solvers_results`: workers with `l_Undef` status are skipped,
a definite status disagreeing with an earlier definite status throws, and
otherwise the state is updated by `collect_update`. -/
def collectLoop : List SolverResult → Nat → CollectState → Except String CollectState
  | [], _, st => Except.ok st
  | w :: ws, t, st =>
    if w.status ≠ lbool.l_Undef then
      if st.status ≠ lbool.l_Undef ∧ w.status ≠ st.status then
        Except.error "c detected unsound parallel behavior when collecting results, aborting"
      else
        collectLoop ws (t + 1) (collect_update w t st)
    else
      collectLoop ws (t + 1) st

/-- Model of `ParSolver::collect_solvers_results()`: run the loop, then move the
winning output.  The returned pair is the aggregate status together with
the coordinator's `conflict` vector afterwards (cleared by `solveLimited`,
so empty unless the `l_False` branch moves a worker's conflict).  In the
`l_True` branch the source moves models between workers and extends the
primary's model, operations of the external engine that carry no
coordination state; the coordinator's `conflict` stays empty there.  The
source's `assert(smallest_conflict_idx >= 0 && ...)` is modelled as
`Except.error`. -/
def collect_solvers_results (results : List SolverResult) : Except String (lbool × List Int) :=
  match collectLoop results 0 ⟨lbool.l_Undef, USIZE_MAX, -1, -1⟩ with
  | Except.error e => Except.error e
  | Except.ok st =>
    match st.status with
    | lbool.l_True => Except.ok (lbool.l_True, [])
    | lbool.l_False =>
        if 0 ≤ st.smallest_conflict_idx then
          Except.ok (lbool.l_False,
            (results.getD st.smallest_conflict_idx.toNat ⟨lbool.l_Undef, []⟩).conflict)
        else
          Except.error "assertion failed: at least one index has been found"
    | lbool.l_Undef => Except.ok (lbool.l_Undef, [])

theorem collect_update_status (w : SolverResult) (t : Nat) (st : CollectState) :
    (collect_update w t st).status = w.status := by
  unfold collect_update
  split_ifs <;> rfl

theorem collect_update_smallest (w : SolverResult) (t : Nat) (st : CollectState) :
    (collect_update w t st).smallest_conflict = st.smallest_conflict := by
  unfold collect_update
  split_ifs <;> rfl

theorem collect_update_idx_false (w : SolverResult) (t : Nat) (st : CollectState)
    (h1 : w.status = lbool.l_False) (h2 : w.conflict.length < st.smallest_conflict) :
    (collect_update w t st).smallest_conflict_idx = (t : Int) := by
  unfold collect_update
  rw [if_pos ⟨h1, h2⟩]

theorem collectLoop_cons_undef {w : SolverResult} (hw : w.status = lbool.l_Undef)
    (ws : List SolverResult) (t : Nat) (st : CollectState) :
    collectLoop (w :: ws) t st = collectLoop ws (t + 1) st := by
  simp only [collectLoop]
  rw [if_neg (by simp [hw])]

theorem collectLoop_cons_throw {w : SolverResult} {st : CollectState}
    (hw : w.status ≠ lbool.l_Undef) (hst : st.status ≠ lbool.l_Undef)
    (hne : w.status ≠ st.status) (ws : List SolverResult) (t : Nat) :
    collectLoop (w :: ws) t st =
      Except.error "c detected unsound parallel behavior when collecting results, aborting" := by
  simp only [collectLoop]
  rw [if_pos hw, if_pos ⟨hst, hne⟩]

theorem collectLoop_cons_step {w : SolverResult} {st : CollectState}
    (hw : w.status ≠ lbool.l_Undef)
    (hnothrow : ¬(st.status ≠ lbool.l_Undef ∧ w.status ≠ st.status))
    (ws : List SolverResult) (t : Nat) :
    collectLoop (w :: ws) t st = collectLoop ws (t + 1) (collect_update w t st) := by
  simp only [collectLoop]
  rw [if_pos hw, if_neg hnothrow]

/-- If the loop finishes without throwing, then every definite worker
status in the remaining list agrees with a definite aggregate status. -/
theorem collectLoop_ok_agree {ws : List SolverResult} {t : Nat} {st st' : CollectState}
    (hok : collectLoop ws t st = Except.ok st') :
    ∀ w ∈ ws, w.status ≠ lbool.l_Undef → st.status ≠ lbool.l_Undef → w.status = st.status := by
  induction ws generalizing t st with
  | nil => intro w hw; cases hw
  | cons w0 ws ih =>
    intro w hw hwdef hstdef
    by_cases h0 : w0.status = lbool.l_Undef
    · rw [collectLoop_cons_undef h0] at hok
      rcases List.mem_cons.mp hw with rfl | hw
      · exact absurd h0 hwdef
      · exact ih hok w hw hwdef hstdef
    · by_cases hthrow : w0.status = st.status
      · rw [collectLoop_cons_step h0 (by tauto)] at hok
        rcases List.mem_cons.mp hw with rfl | hw
        · exact hthrow
        · have := ih hok w hw hwdef
            (by rw [collect_update_status]; exact h0)
          rw [collect_update_status] at this
          rw [this, hthrow]
      · rw [collectLoop_cons_throw h0 hstdef hthrow] at hok
        exact absurd hok (by simp)

/-- If the loop finishes without throwing, all definite worker statuses in
the list agree pairwise. -/
theorem collectLoop_ok_pairwise {ws : List SolverResult} {t : Nat} {st st' : CollectState}
    (hok : collectLoop ws t st = Except.ok st') :
    ∀ w ∈ ws, ∀ u ∈ ws,
      w.status ≠ lbool.l_Undef → u.status ≠ lbool.l_Undef → w.status = u.status := by
  induction ws generalizing t st with
  | nil => intro w hw; cases hw
  | cons w0 ws ih =>
    intro w hw u hu hwdef hudef
    by_cases h0 : w0.status = lbool.l_Undef
    · rw [collectLoop_cons_undef h0] at hok
      have hw2 : w ∈ ws := by
        rcases List.mem_cons.mp hw with heq | h
        · rw [heq] at hwdef
          exact absurd h0 hwdef
        · exact h
      have hu2 : u ∈ ws := by
        rcases List.mem_cons.mp hu with heq | h
        · rw [heq] at hudef
          exact absurd h0 hudef
        · exact h
      exact ih hok w hw2 u hu2 hwdef hudef
    · by_cases hthrow : st.status ≠ lbool.l_Undef ∧ w0.status ≠ st.status
      · rw [collectLoop_cons_throw h0 hthrow.1 hthrow.2] at hok
        exact absurd hok (by simp)
      · rw [collectLoop_cons_step h0 hthrow] at hok
        have hup : (collect_update w0 t st).status = w0.status := collect_update_status w0 t st
        have hkey : ∀ v ∈ ws, v.status ≠ lbool.l_Undef → v.status = w0.status := by
          intro v hv hvdef
          have := collectLoop_ok_agree hok v hv hvdef (by rw [hup]; exact h0)
          rw [hup] at this
          exact this
        rcases List.mem_cons.mp hw with hweq | hw2
        · rcases List.mem_cons.mp hu with hueq | hu2
          · rw [hweq, hueq]
          · rw [hweq]
            exact (hkey u hu2 hudef).symm
        · rcases List.mem_cons.mp hu with hueq | hu2
          · rw [hueq]
            exact hkey w hw2 hwdef
          · exact ih hok w hw2 u hu2 hwdef hudef

/-- If all definite statuses agree pairwise and with a definite aggregate,
the loop never throws. -/
theorem collectLoop_no_throw (ws : List SolverResult) (t : Nat) (st : CollectState)
    (hpair : ∀ w ∈ ws, ∀ u ∈ ws,
      w.status ≠ lbool.l_Undef → u.status ≠ lbool.l_Undef → w.status = u.status)
    (hst : st.status ≠ lbool.l_Undef →
      ∀ w ∈ ws, w.status ≠ lbool.l_Undef → w.status = st.status) :
    ∃ st', collectLoop ws t st = Except.ok st' := by
  induction ws generalizing t st with
  | nil => exact ⟨st, rfl⟩
  | cons w0 ws ih =>
    by_cases h0 : w0.status = lbool.l_Undef
    · rw [collectLoop_cons_undef h0]
      exact ih (t + 1) st
        (fun w hw u hu => hpair w (List.mem_cons_of_mem w0 hw) u (List.mem_cons_of_mem w0 hu))
        (fun hdef w hw => hst hdef w (List.mem_cons_of_mem w0 hw))
    · have hnothrow : ¬(st.status ≠ lbool.l_Undef ∧ w0.status ≠ st.status) := by
        intro hcon
        exact hcon.2 (hst hcon.1 w0 (List.mem_cons_self w0 ws) h0)
      rw [collectLoop_cons_step h0 hnothrow]
      refine ih (t + 1) (collect_update w0 t st) ?_ ?_
      · exact fun w hw u hu =>
          hpair w (List.mem_cons_of_mem w0 hw) u (List.mem_cons_of_mem w0 hu)
      · intro _ w hw hwdef
        rw [collect_update_status]
        exact hpair w (List.mem_cons_of_mem w0 hw) w0 (List.mem_cons_self w0 ws) hwdef h0

/-- The field `smallest_conflict` is never written by the loop. -/
theorem collectLoop_smallest_const {ws : List SolverResult} {t : Nat} {st st' : CollectState}
    (hok : collectLoop ws t st = Except.ok st') :
    st'.smallest_conflict = st.smallest_conflict := by
  induction ws generalizing t st with
  | nil =>
    simp only [collectLoop, Except.ok.injEq] at hok
    rw [hok]
  | cons w0 ws ih =>
    by_cases h0 : w0.status = lbool.l_Undef
    · rw [collectLoop_cons_undef h0] at hok
      exact ih hok
    · by_cases hthrow : st.status ≠ lbool.l_Undef ∧ w0.status ≠ st.status
      · rw [collectLoop_cons_throw h0 hthrow.1 hthrow.2] at hok
        exact absurd hok (by simp)
      · rw [collectLoop_cons_step h0 hthrow] at hok
        rw [ih hok, collect_update_smallest]

/-- A final `l_False` aggregate guarantees a nonnegative
`smallest_conflict_idx`, provided every conflict is shorter than the
running `smallest_conflict` bound (true for the initial `~0UL` bound). -/
theorem collectLoop_false_idx {ws : List SolverResult} {t : Nat} {st st' : CollectState}
    (hok : collectLoop ws t st = Except.ok st')
    (hlen : ∀ w ∈ ws, w.conflict.length < st.smallest_conflict)
    (hinv : st.status = lbool.l_False → 0 ≤ st.smallest_conflict_idx) :
    st'.status = lbool.l_False → 0 ≤ st'.smallest_conflict_idx := by
  induction ws generalizing t st with
  | nil =>
    simp only [collectLoop, Except.ok.injEq] at hok
    rw [← hok]
    exact hinv
  | cons w0 ws ih =>
    by_cases h0 : w0.status = lbool.l_Undef
    · rw [collectLoop_cons_undef h0] at hok
      exact ih hok (fun w hw => hlen w (List.mem_cons_of_mem w0 hw)) hinv
    · by_cases hthrow : st.status ≠ lbool.l_Undef ∧ w0.status ≠ st.status
      · rw [collectLoop_cons_throw h0 hthrow.1 hthrow.2] at hok
        exact absurd hok (by simp)
      · rw [collectLoop_cons_step h0 hthrow] at hok
        refine ih hok ?_ ?_
        · intro w hw
          rw [collect_update_smallest]
          exact hlen w (List.mem_cons_of_mem w0 hw)
        · intro hfalse
          rw [collect_update_status] at hfalse
          have := collect_update_idx_false w0 t st hfalse
            (hlen w0 (List.mem_cons_self w0 ws))
          rw [this]
          exact Int.ofNat_nonneg t

/-- C1 (code evaluation at the failing input): with two workers both
reporting `l_False`, the first with a conflict of size 1 and the second
with a conflict of size 2, `collect_solvers_results` moves the SECOND,
larger conflict into the coordinator.  `smallest_conflict` is never
updated inside the loop (it stays `~0UL`), so the last worker with status
`l_False` always wins, contradicting the claim (and the source's own
comment) that the smallest conflict is selected. -/
theorem collect_results_last_false_wins_code_eval :
    collect_solvers_results [⟨lbool.l_False, [1]⟩, ⟨lbool.l_False, [1, 2]⟩] =
      Except.ok (lbool.l_False, [1, 2]) ∧
    ([1] : List Int).length < ([1, 2] : List Int).length := by
  constructor
  · rfl
  · decide

/-- C2: if two workers carry definite but different statuses,
`collect_solvers_results` throws the soundness-violation error instead of
returning a status; and whenever all definite statuses agree (conflict
sizes being below the 64-bit bound, as every C++ `vec` size is), no error
is raised. -/
theorem collect_results_disagreement_aborts (results : List SolverResult) :
    ((∃ i : Fin results.length, ∃ j : Fin results.length,
        (results.get i).status ≠ lbool.l_Undef ∧
        (results.get j).status ≠ lbool.l_Undef ∧
        (results.get i).status ≠ (results.get j).status) →
      ∃ e, collect_solvers_results results = Except.error e) ∧
    ((∀ i : Fin results.length, ∀ j : Fin results.length,
        (results.get i).status ≠ lbool.l_Undef →
        (results.get j).status ≠ lbool.l_Undef →
        (results.get i).status = (results.get j).status) →
      (∀ w ∈ results, w.conflict.length < USIZE_MAX) →
      ∃ v, collect_solvers_results results = Except.ok v) := by
  constructor
  · rintro ⟨i, j, hi, hj, hij⟩
    rcases hloop : collectLoop results 0 ⟨lbool.l_Undef, USIZE_MAX, -1, -1⟩ with e | st
    · exact ⟨e, by simp [collect_solvers_results, hloop]⟩
    · exact absurd
        (collectLoop_ok_pairwise hloop (results.get i) (results.get_mem i.1 i.2)
          (results.get j) (results.get_mem j.1 j.2) hi hj) hij
  · intro hagree hlen
    have hpair : ∀ w ∈ results, ∀ u ∈ results,
        w.status ≠ lbool.l_Undef → u.status ≠ lbool.l_Undef → w.status = u.status := by
      intro w hw u hu hwdef hudef
      obtain ⟨i, hi⟩ := List.mem_iff_get.mp hw
      obtain ⟨j, hj⟩ := List.mem_iff_get.mp hu
      subst hi
      subst hj
      exact hagree i j hwdef hudef
    obtain ⟨st', hok⟩ := collectLoop_no_throw results 0 ⟨lbool.l_Undef, USIZE_MAX, -1, -1⟩
      hpair (fun hdef => absurd rfl hdef)
    have hsmall : st'.smallest_conflict = USIZE_MAX := collectLoop_smallest_const hok
    have hidx := collectLoop_false_idx hok (by simpa using hlen) (by intro h; cases h)
    rcases hstat : st'.status with _ | _ | _
    · exact ⟨(lbool.l_True, []), by simp [collect_solvers_results, hok, hstat]⟩
    · refine ⟨(lbool.l_False,
        (results.getD st'.smallest_conflict_idx.toNat ⟨lbool.l_Undef, []⟩).conflict), ?_⟩
      have h0 : 0 ≤ st'.smallest_conflict_idx := hidx hstat
      simp [collect_solvers_results, hok, hstat, h0]
    · exact ⟨(lbool.l_Undef, []), by simp [collect_solvers_results, hok, hstat]⟩

/-- Witness for `collect_results_disagreement_aborts`: a concrete
disagreeing pair aborts, and a concrete agreeing vector returns a value. -/
theorem collect_results_disagreement_aborts_witness :
    (∃ e, collect_solvers_results [⟨lbool.l_False, []⟩, ⟨lbool.l_True, []⟩] =
      Except.error e) ∧
    (∃ v, collect_solvers_results [⟨lbool.l_True, []⟩, ⟨lbool.l_Undef, []⟩] =
      Except.ok v) :=
  ⟨(collect_results_disagreement_aborts [⟨lbool.l_False, []⟩, ⟨lbool.l_True, []⟩]).1
      ⟨⟨0, by decide⟩, ⟨1, by decide⟩, by decide, by decide, by decide⟩,
   (collect_results_disagreement_aborts [⟨lbool.l_True, []⟩, ⟨lbool.l_Undef, []⟩]).2
      (by decide) (by decide)⟩

/-! Worker job body: `ParSolver::thread_run_solve`
(src/minisat/parallel/ParSolver.cc, lines 386-407) -/

/-- What `thread_run_solve(t)` observes about worker `t` when it starts:
`solvers[t]->okay()` and the value `solvers[t]->solveLimited(assumptions)`
would return. -/
structure WorkerPre where
  okay : Bool
  solve_result : lbool
deriving DecidableEq, Repr

/-- Externally visible outcome of one `thread_run_solve(t)` call: the final
`solverData[t]._status`, whether `solveLimited` was invoked, and whether
the thread arrived at (`wait()`ed on) the terminal `solvingBarrier`. -/
structure ThreadRunOutcome where
  status : lbool
  called_solveLimited : Bool
  waited_on_barrier : Bool
deriving DecidableEq, Repr

/-- Model of `ParSolver::thread_run_solve(threadnr)` for an in-range
`threadnr` (the `threadnr >= solverData.size()` guard is a defensive no-op
never taken by the dispatcher): if the worker is not `okay()` the source
sets `_status = l_False` and returns immediately — without arriving at the
`solvingBarrier` and without calling `solveLimited`; otherwise it runs
`solveLimited`, stores its result and waits on the barrier (the idle-time
stopwatch around the wait carries no coordination state). -/
def thread_run_solve (w : WorkerPre) : ThreadRunOutcome :=
  if w.okay = false then
    ⟨lbool.l_False, false, false⟩
  else
    ⟨w.solve_result, true, true⟩

/-- C3 (code evaluation at the failing input): on a worker whose `okay()`
is false, `thread_run_solve` does set the status to `l_False` and skips
`solveLimited`, but it also SKIPS the barrier arrival that the claim (and
the spec) require, so the remaining workers block forever at the terminal
rendezvous. -/
theorem thread_run_solve_bad_state_skips_barrier_eval :
    thread_run_solve ⟨false, lbool.l_Undef⟩ = ⟨lbool.l_False, false, false⟩ ∧
    (thread_run_solve ⟨false, lbool.l_Undef⟩).waited_on_barrier ≠ true := by
  constructor
  · rfl
  · decide

/-! Control flow of `ParSolver::solveLimited`
(src/minisat/parallel/ParSolver.cc, lines 161-238) -/

/-- Inputs read by one `ParSolver::solveLimited` call: the core count, the
`use_simplification` flag, the result of `solvers[0]->eliminate(true)`,
the sequential path's solver answer, the per-worker results of the
parallel run, and `solvers[0]->nClauses()` / `solvers[0]->nUnits()` as
read after `thread_run_solve(0)` returns. -/
structure SolveEnv where
  cores : Nat
  use_simplification : Bool
  eliminate_ok : Bool
  seq_result : lbool
  par_results : List SolverResult
  primary_nClauses : Nat
  primary_nUnits : Nat
deriving DecidableEq, Repr

/-- The coordinator fields whose update is at issue in `solveLimited`:
`synced_clauses`, `synced_units`, `primary_modified`. -/
structure CoordSync where
  synced_clauses : Nat
  synced_units : Nat
  primary_modified : Bool
deriving DecidableEq, Repr

/-- Model of the control flow of `ParSolver::solveLimited`: if
simplification runs and `eliminate` reports unsat, control jumps to
`done_solving` with `l_False` and the sync counters untouched; on the
`sequential()` (`cores == 1`) path the primary solves alone and the sync
counters are again untouched; only the parallel branch assigns
`synced_clauses = solvers[0]->nClauses()` and
`synced_units = solvers[0]->nUnits()` (after the primary's search, before
collecting), clears `primary_modified`, and returns what
`collect_solvers_results` produces.  The source stores the sync counters
before calling `collect_solvers_results`; since a throw there aborts the
process, keeping the updated counters only on the non-throwing path is
observationally equal. -/
def solveLimited (env : SolveEnv) (st : CoordSync) : Except String (lbool × CoordSync) :=
  if env.use_simplification ∧ env.eliminate_ok = false then
    Except.ok (lbool.l_False, st)
  else if env.cores = 1 then
    Except.ok (env.seq_result, st)
  else
    match collect_solvers_results env.par_results with
    | Except.error e => Except.error e
    | Except.ok r =>
        Except.ok (r.1, ⟨env.primary_nClauses, env.primary_nUnits, false⟩)

/-- C4 counterexample: a complete sequential (`cores == 1`) `solveLimited`
call leaves `synced_clauses` at its old value 0 even though the primary
holds 5 clauses, refuting the claim for the `cores == 1` path (the update
sits only in the parallel branch of the source). -/
theorem solveLimited_sequential_synced_counterexample :
    solveLimited ⟨1, false, true, lbool.l_True, [], 5, 2⟩ ⟨0, 0, true⟩ =
      Except.ok (lbool.l_True, ⟨0, 0, true⟩) ∧
    (0 : Nat) ≠ 5 := by
  constructor
  · rfl
  · decide

/-- C4 as amended: after every complete PARALLEL `solveLimited` call
(`cores ≥ 2`, preprocessing not deciding unsat), `synced_clauses` equals
the primary worker's `nClauses` and `synced_units` equals the primary
worker's `nUnits`; the sequential path and the preprocessing-unsat path
leave both counters unchanged (see the counterexample). -/
theorem solveLimited_parallel_updates_synced (env : SolveEnv) (st : CoordSync)
    (hc : 2 ≤ env.cores)
    (hs : env.use_simplification = true → env.eliminate_ok = true)
    (r : lbool) (st' : CoordSync)
    (hrun : solveLimited env st = Except.ok (r, st')) :
    st'.synced_clauses = env.primary_nClauses ∧ st'.synced_units = env.primary_nUnits := by
  unfold solveLimited at hrun
  have h1 : ¬(env.use_simplification = true ∧ env.eliminate_ok = false) := by
    rintro ⟨ha, hb⟩
    rw [hs ha] at hb
    cases hb
  rw [if_neg h1, if_neg (by omega)] at hrun
  rcases hcol : collect_solvers_results env.par_results with e | v
  · rw [hcol] at hrun
    cases hrun
  · rw [hcol] at hrun
    simp only [Except.ok.injEq, Prod.mk.injEq] at hrun
    obtain ⟨-, h3⟩ := hrun
    rw [← h3]
    exact ⟨rfl, rfl⟩

/-- Witness for `solveLimited_parallel_updates_synced` on a concrete
two-core run whose first worker returns `l_True`. -/
theorem solveLimited_parallel_updates_synced_witness :
    (CoordSync.mk 5 2 false).synced_clauses = 5 ∧
    (CoordSync.mk 5 2 false).synced_units = 2 :=
  solveLimited_parallel_updates_synced
    ⟨2, false, true, lbool.l_Undef, [⟨lbool.l_True, []⟩, ⟨lbool.l_Undef, []⟩], 5, 2⟩
    ⟨0, 0, true⟩ (by decide) (by decide) lbool.l_True ⟨5, 2, false⟩ rfl

/-! Sharing rounds: `ParSolver::sync_thread_portfolio`
(src/minisat/parallel/ParSolver.cc, lines 473-503) -/

/-- Value of the local `int64_t sync_diff = 10000` in
`sync_thread_portfolio` (declared tunable, never actually adjusted). -/
def sync_diff : Nat := 10000

/-- Model of `ParSolver::sync_thread_portfolio(threadnr)` acting on worker
`threadnr`'s counters: given the worker's `_next_sync_counter_limit` and
its current `counter_access.sum()` (both `uint64_t`), return the new limit
and the `stop_search` result.  If the limit has not been crossed the call
returns `false` immediately with no state change; otherwise the source
runs the three barrier phases (which in this revision publish and consume
nothing and only touch the shared `syncing_solvers` counter), then
executes `_next_sync_counter_limit += sync_diff` (64-bit wrap) and returns
`false`. -/
def sync_thread_portfolio (next_sync_counter_limit counter_sum : Nat) : Nat × Bool :=
  if counter_sum ≤ next_sync_counter_limit then
    (next_sync_counter_limit, false)
  else
    ((next_sync_counter_limit + sync_diff) % 2 ^ 64, false)

/-- C5 counterexample: with the previous limit 0 and the access counter at
20000 a sharing round runs, but the new limit is `0 + 10000 = 10000`, not
the claimed `counter + sync_diff = 30000`: the source adds `sync_diff` to
the OLD limit, not to the current counter value. -/
theorem sync_thread_portfolio_limit_counterexample :
    (sync_thread_portfolio 0 20000).1 = 10000 ∧ (10000 : Nat) ≠ 20000 + 10000 := by
  constructor
  · rfl
  · decide

/-- C5 as amended: whenever the access counter has crossed
`next_sync_limit` (so a sharing round runs), `sync_thread_portfolio` adds
`sync_diff` (10000) to the worker's PREVIOUS `next_sync_limit` (with
64-bit wrap-around), and returns `false` unconditionally. -/
theorem sync_thread_portfolio_round_spec (next_limit counter : Nat)
    (hcross : next_limit < counter) :
    sync_thread_portfolio next_limit counter =
      ((next_limit + sync_diff) % 2 ^ 64, false) := by
  unfold sync_thread_portfolio
  rw [if_neg (by omega)]

/-- Witness for `sync_thread_portfolio_round_spec` at a concrete crossing. -/
theorem sync_thread_portfolio_round_spec_witness :
    sync_thread_portfolio 0 20000 = ((0 + sync_diff) % 2 ^ 64, false) :=
  sync_thread_portfolio_round_spec 0 20000 (by decide)

/-! JobQueue state words and semaphores
(src/minisat/parallel/JobQueue.h, lines 139-357) -/

/-- Value of `JobQueue::SLEEP`. -/
def SLEEP : Int := 0

/-- Value of `JobQueue::WORKING`. -/
def WORKING : Int := 1

/-- Value of `JobQueue::TERMINATE`. -/
def TERMINATE : Int := -1

/-- The JobQueue fields touched by `setState` and `wakeUpAll`: the global
`_workState`, the per-thread `_threadState` words, and the value of each
per-thread sleep semaphore `_sleepSem[i]` (number of pending posts). -/
structure JobQueueState where
  workState : Int
  threadState : List Int
  sleepSem : List Nat
deriving DecidableEq, Repr

/-- Model of `JobQueue::wakeUpAll()`: `sem_post` every thread's sleep
semaphore. -/
def wakeUpAll (q : JobQueueState) : JobQueueState :=
  ⟨q.workState, q.threadState, q.sleepSem.map (fun c => c + 1)⟩

/-- Model of `JobQueue::setState(int workState)`: only on the transition
`SLEEP -> WORKING` does it write the per-thread states and post every
sleep semaphore; in every other case it merely stores the new global
work-state. -/
def setState (q : JobQueueState) (workState : Int) : JobQueueState :=
  if q.workState = SLEEP ∧ workState = WORKING then
    wakeUpAll ⟨workState, q.threadState.map (fun _ => workState), q.sleepSem⟩
  else
    ⟨workState, q.threadState, q.sleepSem⟩

/-- Model of the state effect of `JobQueue::wait_terminate()` (run by the
destructor): `setState(TERMINATE)` followed by an explicit `wakeUpAll()`;
the subsequent `pthread_join` loop carries no queue state. -/
def wait_terminate (q : JobQueueState) : JobQueueState :=
  wakeUpAll (setState q TERMINATE)

/-- C8 counterexample: calling `setState(TERMINATE)` on a sleeping
two-thread pool posts no semaphore at all — the wake-up branch of
`setState` fires only on `SLEEP -> WORKING`, so the claim that
`setState(TERMINATE)` posts every worker's sleep semaphore is false. -/
theorem setState_terminate_no_wakeup_counterexample :
    (setState ⟨SLEEP, [SLEEP, SLEEP], [0, 0]⟩ TERMINATE).sleepSem = [0, 0] ∧
    ([0, 0] : List Nat) ≠ [0 + 1, 0 + 1] := by
  constructor
  · rfl
  · decide

/-- C8 as amended: `setState(TERMINATE)`, from any prior global
work-state, only stores `TERMINATE` into the global work-state and posts
no sleep semaphore (and leaves the per-thread states alone); the waking of
all worker threads on termination is done by `wait_terminate`, which calls
`wakeUpAll` — posting every worker's sleep semaphore — after
`setState(TERMINATE)`. -/
theorem setState_terminate_spec (q : JobQueueState) :
    (setState q TERMINATE).workState = TERMINATE ∧
    (setState q TERMINATE).sleepSem = q.sleepSem ∧
    (setState q TERMINATE).threadState = q.threadState ∧
    (wait_terminate q).workState = TERMINATE ∧
    (wait_terminate q).sleepSem = q.sleepSem.map (fun c => c + 1) := by
  have hcond : ¬(q.workState = SLEEP ∧ TERMINATE = WORKING) := by
    rintro ⟨-, h⟩
    exact absurd h (by decide)
  simp [wait_terminate, setState, wakeUpAll, if_neg hcond]

/-! Coordinator pass-through operations
(src/minisat/parallel/ParSolver.cc, lines 72-120) -/

/-- The formula-construction operations the coordinator forwards to a
worker engine; the engine itself is external, so a worker is modelled by
the log of operations it received. -/
inductive PrimaryOp
  | newVar (polarity dvar : Bool)
  | reserveVars (vars : Nat)
  | addClause (ps : List Int)
  | addInputClause (ps : List Int)
  | setFrozen (v : Nat) (b : Bool)
  | eliminate (turn_off_elim : Bool)
deriving DecidableEq, Repr

/-- A worker engine, as the coordinator sees it here: the operations
forwarded to it so far. -/
structure WorkerLog where
  ops : List PrimaryOp
deriving DecidableEq, Repr

/-- The coordinator fields the pass-through operations touch: the worker
vector `solvers` (index 0 is the primary) and `primary_modified`. -/
structure ParState where
  solvers : List WorkerLog
  primary_modified : Bool
deriving DecidableEq, Repr

/-- Forward one operation to `solvers[0]` (every pass-through call first
asserts `solvers[0] != nullptr`; on the empty vector the model leaves the
state unchanged, a state the constructor never produces). -/
def applyToPrimary (c : ParState) (op : PrimaryOp) : ParState :=
  match c.solvers with
  | [] => c
  | p :: rest => ⟨⟨p.ops ++ [op]⟩ :: rest, c.primary_modified⟩

/-- Model of `ParSolver::newVar`: sets `primary_modified = true` and
forwards to the primary.  The returned `Var` comes from the external
engine. -/
def ParSolver.newVar (c : ParState) (polarity dvar : Bool) : ParState :=
  applyToPrimary ⟨c.solvers, true⟩ (PrimaryOp.newVar polarity dvar)

/-- Model of `ParSolver::reserveVars`: forwards to the primary; the source
does NOT set `primary_modified`. -/
def ParSolver.reserveVars (c : ParState) (vars : Nat) : ParState :=
  applyToPrimary c (PrimaryOp.reserveVars vars)

/-- Model of `ParSolver::addClause_`: sets `primary_modified = true` and
forwards to the primary (the `bool` result comes from the engine). -/
def ParSolver.addClause_ (c : ParState) (ps : List Int) : ParState :=
  applyToPrimary ⟨c.solvers, true⟩ (PrimaryOp.addClause ps)

/-- Model of `ParSolver::addInputClause_`: sets `primary_modified = true`
and forwards to the primary. -/
def ParSolver.addInputClause_ (c : ParState) (ps : List Int) : ParState :=
  applyToPrimary ⟨c.solvers, true⟩ (PrimaryOp.addInputClause ps)

/-- Model of `ParSolver::setFrozen`: forwards to the primary; the source
deliberately does not set `primary_modified` (only the primary ever runs
simplification). -/
def ParSolver.setFrozen (c : ParState) (v : Nat) (b : Bool) : ParState :=
  applyToPrimary c (PrimaryOp.setFrozen v b)

/-- Model of `ParSolver::eliminate`: sets `primary_modified = true` and
forwards to the primary (the `bool` result comes from the engine). -/
def ParSolver.eliminate (c : ParState) (turn_off_elim : Bool) : ParState :=
  applyToPrimary ⟨c.solvers, true⟩ (PrimaryOp.eliminate turn_off_elim)

/-- C9 counterexample: `reserveVars` on a coordinator with
`primary_modified = false` leaves `primary_modified` at `false`, refuting
the claim that `reserveVars` sets it to `true`. -/
theorem reserveVars_no_primary_modified_counterexample :
    (ParSolver.reserveVars ⟨[⟨[]⟩, ⟨[]⟩], false⟩ 7).primary_modified = false ∧
    false ≠ true := by
  constructor
  · rfl
  · decide

/-- C9 as amended: each pass-through operation appends its operation to
the primary worker (worker 0) and leaves every replica untouched;
`newVar`, `addClause_`, `addInputClause_` and `eliminate` set
`primary_modified = true`, while `reserveVars` and `setFrozen` forward
without touching `primary_modified`. -/
theorem coordinator_forwarding_spec (p : WorkerLog) (rest : List WorkerLog) (m : Bool)
    (polarity dvar b turn_off_elim : Bool) (vars v : Nat) (ps qs : List Int) :
    ParSolver.newVar ⟨p :: rest, m⟩ polarity dvar =
      ⟨⟨p.ops ++ [PrimaryOp.newVar polarity dvar]⟩ :: rest, true⟩ ∧
    ParSolver.reserveVars ⟨p :: rest, m⟩ vars =
      ⟨⟨p.ops ++ [PrimaryOp.reserveVars vars]⟩ :: rest, m⟩ ∧
    ParSolver.addClause_ ⟨p :: rest, m⟩ ps =
      ⟨⟨p.ops ++ [PrimaryOp.addClause ps]⟩ :: rest, true⟩ ∧
    ParSolver.addInputClause_ ⟨p :: rest, m⟩ qs =
      ⟨⟨p.ops ++ [PrimaryOp.addInputClause qs]⟩ :: rest, true⟩ ∧
    ParSolver.setFrozen ⟨p :: rest, m⟩ v b =
      ⟨⟨p.ops ++ [PrimaryOp.setFrozen v b]⟩ :: rest, m⟩ ∧
    ParSolver.eliminate ⟨p :: rest, m⟩ turn_off_elim =
      ⟨⟨p.ops ++ [PrimaryOp.eliminate turn_off_elim]⟩ :: rest, true⟩ :=
  ⟨rfl, rfl, rfl, rfl, rfl, rfl⟩

end MergeSat
